import Mathlib

/-!
Verification of `dattool.py` (ecoflux_tools): a shallow embedding of its three
functions — `measurement_h_v_dict`, `gapfill_series`, `resample_ecoflux_met` —
and theorems settling the specification claims about them.

Embedding conventions:
* a pandas Series/DataFrame cell is `Option ℚ` (`none` models NaN);
* a DataFrame is an index list (timestamps as `Nat`) plus named columns;
* operations that can raise in Python (label indexing with missing labels,
  out-of-range list indexing) return `Option`, `none` modelling the raised
  exception;
* `df.resample(freq)` is abstracted by an arbitrary bucketing map
  `Nat → Nat` applied to the timestamps; only occupied buckets are
  materialised, in order of first appearance (the claims under study are
  per-bucket and column-structural, so bucket ordering and empty calendar
  buckets are irrelevant to them);
* input frames are assumed to have distinct column names, so label lookup is
  first-match.
-/

/-- `leadsList n h` decides whether `n` is an initial segment of `h`
(character-list version of Python's startswith, used for substring search). -/
def leadsList : List Char → List Char → Bool
  | [], _ => true
  | _ :: _, [] => false
  | a :: as, b :: bs => a == b && leadsList as bs

/-- `occursIn n h` decides whether `n` occurs contiguously inside `h`:
Python's `n in h` on strings, at the character-list level. -/
def occursIn (n : List Char) : List Char → Bool
  | [] => n.isEmpty
  | c :: cs => leadsList n (c :: cs) || occursIn n cs

/-- Python's `needle in hay` substring test. -/
def strOccurs (needle hay : String) : Bool :=
  occursIn needle.data hay.data

/-- Python's `s.split(sep)` for a single separator character: split into the
(nonempty) list of chunks between occurrences of `sep`. -/
def splitChars (sep : Char) : List Char → List (List Char)
  | [] => [[]]
  | c :: cs =>
    match splitChars sep cs with
    | [] => [[]]
    | r :: rs => if c == sep then [] :: r :: rs else (c :: r) :: rs

/-- `n.split('_')` from the source, producing strings. -/
def splitU (s : String) : List String :=
  (splitChars (Char.ofNat 95) s.data).map (fun l => String.mk l)

/-- `meas.count('_')`: number of underscore characters in `s`. -/
def uscores (s : String) : Nat :=
  (s.data.filter (fun c => c == Char.ofNat 95)).length

/-- Python list comprehension over a fallible element operation: `none` as soon
as any element's operation raises, otherwise the list of results. -/
def optMap (f : α → Option β) : List α → Option (List β)
  | [] => some []
  | x :: xs =>
    match f x with
    | none => none
    | some y =>
      match optMap f xs with
      | none => none
      | some ys => some (y :: ys)

/-- First-occurrence deduplication, with an accumulator of elements already
seen.  Models building `set(horiz)`; Python's set iteration order is
unspecified, so claims about the resulting dict treat key order as
unspecified, and the embedding fixes first-encounter order. -/
def firstDedupAux [DecidableEq α] (seen : List α) : List α → List α
  | [] => []
  | x :: xs =>
    if x ∈ seen then firstDedupAux seen xs
    else x :: firstDedupAux (x :: seen) xs

/-- First-occurrence deduplication of a list. -/
def firstDedup [DecidableEq α] (l : List α) : List α :=
  firstDedupAux [] l

/-- The `meas_cols` filter of `measurement_h_v_dict` (dattool.py lines 21-25):
columns containing `meas + "_"`, minus those containing the exclusion string
when one is supplied. -/
def measuredCols (cols : List String) (meas : String) (strExclude : Option String) :
    List String :=
  match strExclude with
  | some ex => cols.filter (fun c => strOccurs (meas ++ "_") c && !(strOccurs ex c))
  | none => cols.filter (fun c => strOccurs (meas ++ "_") c)

/-- dattool.py lines 5-33, `measurement_h_v_dict`: count underscores in
`meas`; filter the columns; take split token `1+u` as horizontal and `2+u` as
vertical for every matching column (an out-of-range index is Python's
IndexError, modelled by `none`); build the dict keyed by `meas ++ "_" ++ p`
for each distinct horizontal label `p`, each key holding the vertical labels
of its columns in encounter order. -/
def measurement_h_v_dict (cols : List String) (meas : String)
    (strExclude : Option String) : Option (List (String × List String)) :=
  match optMap (fun n => (splitU n)[1 + uscores meas]?) (measuredCols cols meas strExclude),
      optMap (fun n => (splitU n)[2 + uscores meas]?) (measuredCols cols meas strExclude) with
  | some horiz, some vert =>
    some ((firstDedup horiz).map (fun p =>
      (meas ++ "_" ++ p,
        ((horiz.zip vert).filter (fun q => q.1 == p)).map Prod.snd)))
  | _, _ => none

lemma optMap_eq_none {f : α → Option β} {l : List α} {x : α}
    (hx : x ∈ l) (hfx : f x = none) : optMap f l = none := by
  induction l with
  | nil => cases hx
  | cons a as ih =>
    rcases List.mem_cons.mp hx with h | h
    · subst h
      simp [optMap, hfx]
    · unfold optMap
      cases hfa : f a with
      | none => rfl
      | some y => rw [ih h]

/-- C4: on the column set `{TA_1_1_1, TA_1_2_1, TA_2_1_1}` with `meas = "TA"`
and no exclusion string, the parser returns exactly the mapping
`TA_1 ↦ [1, 2]`, `TA_2 ↦ [1]` (the embedding fixes first-encounter key order;
the claim leaves key order unspecified and this mapping content matches it). -/
theorem measurement_h_v_dict_example :
    measurement_h_v_dict ["TA_1_1_1", "TA_1_2_1", "TA_2_1_1"] "TA" none =
      some [("TA_1", ["1", "2"]), ("TA_2", ["1"])] := by
  decide

/-- C6: whenever some column matched by the measurement filter has fewer
underscore-delimited tokens than position `2 + uscores meas` requires (that
is, fewer than `3 + uscores meas` tokens), `measurement_h_v_dict` fails with
the propagated out-of-range error (`none`); it never silently truncates or
skips such a column. -/
theorem measurement_h_v_dict_short_col (cols : List String) (meas : String)
    (strExclude : Option String) (c : String)
    (hc : c ∈ measuredCols cols meas strExclude)
    (hshort : (splitU c).length < 3 + uscores meas) :
    measurement_h_v_dict cols meas strExclude = none := by
  have hvert : (fun n => (splitU n)[2 + uscores meas]?) c = none :=
    List.getElem?_eq_none (by omega)
  have h2 : optMap (fun n => (splitU n)[2 + uscores meas]?)
      (measuredCols cols meas strExclude) = none := optMap_eq_none hc hvert
  unfold measurement_h_v_dict
  rw [h2]
  rcases optMap (fun n => (splitU n)[1 + uscores meas]?)
      (measuredCols cols meas strExclude) with _ | horiz <;> rfl

/-- Witness for C6 at a concrete malformed input: column `TA_9` matches the
`TA` filter but splits into only two tokens, so the call returns `none`. -/
theorem measurement_h_v_dict_short_col_witness :
    ("TA_9" ∈ measuredCols ["TA_9"] "TA" none ∧
      (splitU "TA_9").length < 3 + uscores "TA") ∧
    measurement_h_v_dict ["TA_9"] "TA" none = none :=
  ⟨by decide, measurement_h_v_dict_short_col ["TA_9"] "TA" none "TA_9"
    (by decide) (by decide)⟩

/-- A pandas cell as observable in the gap filler's output frame: numeric,
NaN, or boolean (the `_gfFLAG` column is boolean). -/
inductive Cell where
  | nan : Cell
  | num : ℚ → Cell
  | bool : Bool → Cell
deriving DecidableEq

/-- A pandas Series: a name, a time index, and numeric-or-NaN values. -/
structure Series where
  name : String
  index : List Nat
  values : List (Option ℚ)
deriving DecidableEq

/-- The DataFrame returned by `gapfill_series`, plus the messages the call
printed (stdout is modelled so the diagnostic of the mismatch branch is
part of the observable result). -/
structure GapfillResult where
  index : List Nat
  cols : List (String × List Cell)
  printed : List String
deriving DecidableEq

/-- View a numeric-or-NaN value as an output cell. -/
def toCell : Option ℚ → Cell
  | none => Cell.nan
  | some q => Cell.num q

/-- dattool.py line 52: `s_filled.loc[gapfill, ...] = s_gapfiller[gapfill]` —
positionwise, a value of the with-gaps series that is NaN is replaced by the
filler's value at that position (which may itself be NaN). -/
def fillVals : List (Option ℚ) → List (Option ℚ) → List (Option ℚ)
  | x :: xs, y :: ys =>
    (match x with
      | none => y
      | some q => some q) :: fillVals xs ys
  | _, _ => []

/-- dattool.py lines 35-65, `gapfill_series`.  When the two indices are
element-wise equal: one frame with the filled column (original name plus
`_gf`, built from `columns[0]`) and the flag column (`columns[0] + 'FLAG'`,
the `isnan` mask of the with-gaps series).  Otherwise: the unmodified
original series only, plus the printed diagnostic.  The optional plotting
side effect (`makeplots`) has no influence on the returned data and is not
modelled. -/
def gapfill_series (s_withgaps s_gapfiller : Series) : GapfillResult :=
  if s_withgaps.index = s_gapfiller.index then
    { index := s_withgaps.index
      cols := [(s_withgaps.name ++ "_gf",
          (fillVals s_withgaps.values s_gapfiller.values).map toCell),
        ((s_withgaps.name ++ "_gf") ++ "FLAG",
          s_withgaps.values.map (fun v => Cell.bool v.isNone))]
      printed := [] }
  else
    { index := s_withgaps.index
      cols := [(s_withgaps.name, s_withgaps.values.map toCell)]
      printed := ["Error - indices are not the same"] }

/-- Label lookup among the result's columns (first match). -/
def getCol (r : GapfillResult) (n : String) : Option (List Cell) :=
  (r.cols.find? (fun c => c.1 == n)).map Prod.snd

/-- The cell of column `n` at position `i`, when both exist. -/
def colEntry (r : GapfillResult) (n : String) (i : Nat) : Option Cell :=
  (getCol r n).bind (fun vs => vs[i]?)

lemma flagName (s : String) : (s ++ "_gf") ++ "FLAG" = s ++ "_gfFLAG" := by
  rw [String.append_assoc]
  rfl

lemma strAppendNeOfLen {t r : String} (h : t.data.length ≠ r.data.length)
    (s : String) : s ++ t ≠ s ++ r := by
  intro he
  have hd := congrArg String.data he
  rw [String.data_append, String.data_append] at hd
  exact h (congrArg List.length (List.append_cancel_left hd))

lemma strNeSelfAppend {t : String} (h : t.data ≠ []) (s : String) :
    s ≠ s ++ t := by
  intro he
  have hd := congrArg String.data he
  rw [String.data_append] at hd
  have hl := congrArg List.length hd
  rw [List.length_append] at hl
  exact h (List.length_eq_zero.mp (by omega))

lemma fillVals_getElem? :
    ∀ (a b : List (Option ℚ)) (i : Nat),
      (fillVals a b)[i]? =
        (a[i]?).bind (fun x => (b[i]?).map (fun y =>
          match x with
          | none => y
          | some q => some q)) := by
  intro a
  induction a with
  | nil => intro b i; simp [fillVals]
  | cons x xs ih =>
    intro b i
    cases b with
    | nil => simp [fillVals]
    | cons y ys =>
      cases i with
      | zero => simp [fillVals]
      | succ n => simpa [fillVals] using ih ys n

lemma fillVals_of_nogaps :
    ∀ (a b : List (Option ℚ)), (∀ x ∈ a, x ≠ none) → b.length = a.length →
      fillVals a b = a := by
  intro a
  induction a with
  | nil => intro b _ _; cases b <;> rfl
  | cons x xs ih =>
    intro b hno hlen
    cases b with
    | nil => simp at hlen
    | cons y ys =>
      have hx : x ≠ none := hno x (List.mem_cons_self x xs)
      cases x with
      | none => exact absurd rfl hx
      | some q =>
        have htl := ih ys (fun z hz => hno z (List.mem_cons_of_mem _ hz))
          (by simpa using hlen)
        simp [fillVals, htl]

/-- C2's property, stated over the result frame: exactly the two output
columns `{name}_gf` and `{name}_gfFLAG`; the filled column equals the
with-gaps series except that originally-missing positions hold the filler's
value; the flag column is true exactly at the originally-missing positions. -/
def gapfillSpec (s1 s2 : Series) (r : GapfillResult) : Prop :=
  r.cols.map Prod.fst = [s1.name ++ "_gf", s1.name ++ "_gfFLAG"] ∧
  (∀ i, s1.values[i]? = some none →
    colEntry r (s1.name ++ "_gf") i = (s2.values[i]?).map toCell) ∧
  (∀ i q, s1.values[i]? = some (some q) →
    colEntry r (s1.name ++ "_gf") i = some (Cell.num q)) ∧
  (∀ i, colEntry r (s1.name ++ "_gfFLAG") i =
    (s1.values[i]?).map (fun v => Cell.bool v.isNone))

lemma getCol_gf (s1 s2 : Series) (hidx : s1.index = s2.index) :
    getCol (gapfill_series s1 s2) (s1.name ++ "_gf") =
      some ((fillVals s1.values s2.values).map toCell) := by
  unfold gapfill_series
  rw [if_pos hidx]
  unfold getCol
  rw [List.find?_cons_of_pos _ (by simp)]
  rfl

lemma getCol_flag (s1 s2 : Series) (hidx : s1.index = s2.index) :
    getCol (gapfill_series s1 s2) (s1.name ++ "_gfFLAG") =
      some (s1.values.map (fun v => Cell.bool v.isNone)) := by
  unfold gapfill_series
  rw [if_pos hidx]
  unfold getCol
  rw [List.find?_cons_of_neg _ (by
    simp only [beq_iff_eq]
    exact strAppendNeOfLen (by decide) s1.name)]
  rw [List.find?_cons_of_pos _ (by simp [flagName])]
  rfl

/-- C2: when the two series have element-wise equal indices, the result holds
exactly the `{name}_gf` column — the with-gaps series with every missing
position replaced by the filler's value there — and the `{name}_gfFLAG`
column, true exactly at the originally-missing positions. -/
theorem gapfill_series_fills (s1 s2 : Series)
    (hidx : s1.index = s2.index)
    (h1 : s1.values.length = s1.index.length)
    (h2 : s2.values.length = s2.index.length) :
    gapfillSpec s1 s2 (gapfill_series s1 s2) := by
  have hlen : s2.values.length = s1.values.length := by rw [h2, ← hidx, ← h1]
  refine ⟨?_, ?_, ?_, ?_⟩
  · unfold gapfill_series
    rw [if_pos hidx]
    simp [flagName]
  · intro i hi
    unfold colEntry
    rw [getCol_gf s1 s2 hidx]
    cases h : s2.values[i]? <;>
      simp [List.getElem?_map, fillVals_getElem?, hi, h]
  · intro i q hi
    have hi1 : i < s1.values.length := by
      by_contra hcon
      push_neg at hcon
      rw [List.getElem?_eq_none hcon] at hi
      cases hi
    have hq : i < s2.values.length := by omega
    have hy : s2.values[i]? = some s2.values[i] := List.getElem?_eq_getElem hq
    unfold colEntry
    rw [getCol_gf s1 s2 hidx]
    simp [List.getElem?_map, fillVals_getElem?, hi, hy, toCell]
  · intro i
    unfold colEntry
    rw [getCol_flag s1 s2 hidx]
    simp [List.getElem?_map]

/-- A with-gaps series used as concrete test input. -/
def sWG : Series := ⟨"SWC", [0, 1, 2], [some 3, none, some 5]⟩

/-- A gap-free filler series on the same index. -/
def sFill : Series := ⟨"SWC2", [0, 1, 2], [some 10, some 20, some 30]⟩

/-- A filler series that is itself missing at position 1. -/
def sFillN : Series := ⟨"PPT", [0, 1, 2], [some 1, none, some 2]⟩

/-- A series on a different index. -/
def sBad : Series := ⟨"TS", [5, 6], [some 1, some 2]⟩

/-- Witness for C2 on concrete aligned series. -/
theorem gapfill_series_fills_witness :
    (sWG.index = sFill.index ∧ sWG.values.length = sWG.index.length ∧
      sFill.values.length = sFill.index.length) ∧
    gapfillSpec sWG sFill (gapfill_series sWG sFill) :=
  ⟨⟨rfl, rfl, rfl⟩, gapfill_series_fills sWG sFill rfl rfl rfl⟩

/-- C3: on an index mismatch the call raises nothing: the result carries only
the unmodified original series under its original name, the diagnostic is
printed, and neither the `_gf` nor the `_gfFLAG` column is present. -/
theorem gapfill_series_mismatch (s1 s2 : Series) (hne : s1.index ≠ s2.index) :
    (gapfill_series s1 s2).cols = [(s1.name, s1.values.map toCell)] ∧
    (gapfill_series s1 s2).printed = ["Error - indices are not the same"] ∧
    getCol (gapfill_series s1 s2) (s1.name ++ "_gf") = none ∧
    getCol (gapfill_series s1 s2) (s1.name ++ "_gfFLAG") = none := by
  have hval : gapfill_series s1 s2 =
      { index := s1.index
        cols := [(s1.name, s1.values.map toCell)]
        printed := ["Error - indices are not the same"] } := by
    unfold gapfill_series
    rw [if_neg hne]
  refine ⟨by rw [hval], by rw [hval], ?_, ?_⟩
  · unfold getCol
    rw [hval]
    rw [List.find?_cons_of_neg _ (by
      simp only [beq_iff_eq]
      exact strNeSelfAppend (by decide) s1.name)]
    rfl
  · unfold getCol
    rw [hval]
    rw [List.find?_cons_of_neg _ (by
      simp only [beq_iff_eq]
      exact strNeSelfAppend (by decide) s1.name)]
    rfl

/-- Witness for C3 on two concrete series with different indices. -/
theorem gapfill_series_mismatch_witness :
    sWG.index ≠ sBad.index ∧
    ((gapfill_series sWG sBad).cols = [(sWG.name, sWG.values.map toCell)] ∧
      (gapfill_series sWG sBad).printed = ["Error - indices are not the same"] ∧
      getCol (gapfill_series sWG sBad) (sWG.name ++ "_gf") = none ∧
      getCol (gapfill_series sWG sBad) (sWG.name ++ "_gfFLAG") = none) :=
  ⟨by decide, gapfill_series_mismatch sWG sBad (by decide)⟩

/-- C7: when the with-gaps series has no missing value, the `_gf` column
equals it exactly and the `_gfFLAG` column is false everywhere. -/
theorem gapfill_series_nogaps (s1 s2 : Series)
    (hidx : s1.index = s2.index)
    (h1 : s1.values.length = s1.index.length)
    (h2 : s2.values.length = s2.index.length)
    (hno : none ∉ s1.values) :
    getCol (gapfill_series s1 s2) (s1.name ++ "_gf") =
      some (s1.values.map toCell) ∧
    getCol (gapfill_series s1 s2) (s1.name ++ "_gfFLAG") =
      some (s1.values.map (fun _ => Cell.bool false)) := by
  have hlen : s2.values.length = s1.values.length := by rw [h2, ← hidx, ← h1]
  constructor
  · rw [getCol_gf s1 s2 hidx,
      fillVals_of_nogaps s1.values s2.values (fun x hx hn => hno (hn ▸ hx)) hlen]
  · rw [getCol_flag s1 s2 hidx]
    congr 1
    apply List.map_congr_left
    intro v hv
    cases v with
    | none => exact absurd hv hno
    | some q => rfl

/-- Witness for C7: a gap-free with-gaps series round-trips unchanged. -/
theorem gapfill_series_nogaps_witness :
    (sFill.index = sWG.index ∧ sFill.values.length = sFill.index.length ∧
      sWG.values.length = sWG.index.length ∧ none ∉ sFill.values) ∧
    (getCol (gapfill_series sFill sWG) (sFill.name ++ "_gf") =
        some (sFill.values.map toCell) ∧
      getCol (gapfill_series sFill sWG) (sFill.name ++ "_gfFLAG") =
        some (sFill.values.map (fun _ => Cell.bool false))) :=
  ⟨⟨rfl, rfl, rfl, by decide⟩,
    gapfill_series_nogaps sFill sWG rfl rfl rfl (by decide)⟩

/-- C10: at a position where both series are missing, the `_gf` column stays
missing while the `_gfFLAG` column is still true. -/
theorem gapfill_series_both_nan (s1 s2 : Series) (i : Nat)
    (hidx : s1.index = s2.index)
    (hg : s1.values[i]? = some none)
    (hf : s2.values[i]? = some none) :
    colEntry (gapfill_series s1 s2) (s1.name ++ "_gf") i = some Cell.nan ∧
    colEntry (gapfill_series s1 s2) (s1.name ++ "_gfFLAG") i =
      some (Cell.bool true) := by
  constructor
  · unfold colEntry
    rw [getCol_gf s1 s2 hidx]
    simp [List.getElem?_map, fillVals_getElem?, hg, hf, toCell]
  · unfold colEntry
    rw [getCol_flag s1 s2 hidx]
    simp [List.getElem?_map, hg]

/-- Witness for C10 at position 1, where both concrete series are missing. -/
theorem gapfill_series_both_nan_witness :
    (sWG.index = sFillN.index ∧ sWG.values[1]? = some none ∧
      sFillN.values[1]? = some none) ∧
    (colEntry (gapfill_series sWG sFillN) (sWG.name ++ "_gf") 1 =
        some Cell.nan ∧
      colEntry (gapfill_series sWG sFillN) (sWG.name ++ "_gfFLAG") 1 =
        some (Cell.bool true)) :=
  ⟨⟨rfl, rfl, rfl⟩, gapfill_series_both_nan sWG sFillN 1 rfl rfl rfl⟩

/-- A pandas DataFrame: a time index (timestamps as `Nat`) and named numeric
columns (each the same length as the index in well-formed frames). -/
structure DataFrame where
  index : List Nat
  cols : List (String × List (Option ℚ))
deriving DecidableEq

/-- Label lookup of one column (first match; input frames are assumed to
have distinct column names). -/
def lookupCol (df : DataFrame) (n : String) : Option (List (Option ℚ)) :=
  (df.cols.find? (fun c => c.1 == n)).map Prod.snd

/-- `df[names]` on a list of labels: the subframe with exactly those columns
in list order; a missing label is pandas' KeyError, modelled by `none`
(current pandas raises whenever any requested label is absent). -/
def subsetCols (df : DataFrame) (names : List String) : Option DataFrame :=
  match optMap (fun n => (lookupCol df n).map (fun v => (n, v))) names with
  | some cs => some ⟨df.index, cs⟩
  | none => none

/-- Per-bucket `.sum()`: skip-NaN sum, `0` when every value is missing. -/
def aggSum (vs : List (Option ℚ)) : Option ℚ :=
  some ((vs.filterMap id).sum)

/-- Per-bucket `.mean()`: skip-NaN arithmetic mean, NaN when all missing. -/
def aggMean (vs : List (Option ℚ)) : Option ℚ :=
  match vs.filterMap id with
  | [] => none
  | x :: xs => some ((x :: xs).sum / (x :: xs).length)

/-- Per-bucket `.min()`: skip-NaN minimum, NaN when all missing. -/
def aggMin (vs : List (Option ℚ)) : Option ℚ :=
  match vs.filterMap id with
  | [] => none
  | x :: xs => some (xs.foldl min x)

/-- Per-bucket `.max()`: skip-NaN maximum, NaN when all missing. -/
def aggMax (vs : List (Option ℚ)) : Option ℚ :=
  match vs.filterMap id with
  | [] => none
  | x :: xs => some (xs.foldl max x)

/-- The values of one column falling into bucket `bk` under bucketing `b`,
in row order. -/
def valsInBucket (b : Nat → Nat) (bk : Nat) (index : List Nat)
    (vals : List (Option ℚ)) : List (Option ℚ) :=
  ((index.zip vals).filter (fun p => b p.1 == bk)).map Prod.snd

/-- One column's rows grouped by bucket (buckets in first-appearance order). -/
def groupVals (b : Nat → Nat) (index : List Nat) (vals : List (Option ℚ)) :
    List (List (Option ℚ)) :=
  (firstDedup (index.map b)).map (fun bk => valsInBucket b bk index vals)

/-- `df.resample(freq).agg()`: group every column by the bucket of its
timestamp and aggregate each bucket.  The calendar arithmetic of `freq` is
abstracted into the bucketing map `b`. -/
def resampleWith (agg : List (Option ℚ) → Option ℚ) (b : Nat → Nat)
    (df : DataFrame) : DataFrame :=
  ⟨firstDedup (df.index.map b),
    df.cols.map (fun c => (c.1, (groupVals b df.index c.2).map agg))⟩

/-- The cumulative effect on one column name of the source's rename loop
`for i in targets: rename(columns={ i : i + suf }, inplace=True)`: each pass
appends `suf` to the name if it currently equals the loop's target. -/
def applyRenames (suf : String) (targets : List String) (n : String) : String :=
  targets.foldl (fun m i => if m = i then m ++ suf else m) n

/-- The whole rename loop applied to a frame's column names. -/
def renameAll (targets : List String) (suf : String) (df : DataFrame) :
    DataFrame :=
  ⟨df.index, df.cols.map (fun c => (applyRenames suf targets c.1, c.2))⟩

/-- dattool.py lines 67-128, `resample_ecoflux_met`.  The four label
subsettings (lines 86-90) happen before the `try:` of line 95, so a missing
label there raises (`none`) and is NOT caught.  Inside the `try` block, the
embedding's mean/min/max aggregation and renaming are total once the
subsetting has succeeded (values are numeric by the data model), so the
`except` branch of lines 113-117 — the empty-frame fallback — is unreachable
in the embedding and does not appear below.  The final `pd.concat(axis=1)`
on four frames sharing the bucketed index is column concatenation. -/
def resample_ecoflux_met (df : DataFrame) (b : Nat → Nat)
    (avg_cols min_cols max_cols sum_cols : List String) : Option DataFrame :=
  match subsetCols df sum_cols, subsetCols df avg_cols,
      subsetCols df min_cols, subsetCols df max_cols with
  | some df_sum, some df_avg, some df_min, some df_max =>
    some ⟨(renameAll sum_cols "_sum" (resampleWith aggSum b df_sum)).index,
      (renameAll sum_cols "_sum" (resampleWith aggSum b df_sum)).cols ++
        (renameAll avg_cols "_avg" (resampleWith aggMean b df_avg)).cols ++
        (renameAll min_cols "_min" (resampleWith aggMin b df_min)).cols ++
        (renameAll max_cols "_max" (resampleWith aggMax b df_max)).cols⟩
  | _, _, _, _ => none

/-- The input frame for C1: only the carbon-flux sum column is present. -/
def dfOnlySum : DataFrame := ⟨[0, 1], [("P_F", [some 1, some 1])]⟩

/-- C1 (refuted — code bug): on a frame containing all of `sum_cols` but
none of the default avg/min/max columns, `resample_ecoflux_met` raises
instead of substituting empty frames: `df[avg_cols]` (dattool.py line 88)
runs before the `try:` of line 95, so its KeyError propagates and nothing is
returned — contrary to the claimed fallback, which the comment on line 94
("Sometimes only C fluxes are provided, handle exceptions") shows was
intended to cover exactly this case. -/
theorem resample_missing_avg_cols_raises :
    "P_F" ∈ dfOnlySum.cols.map Prod.fst ∧
    resample_ecoflux_met dfOnlySum (fun t => t) ["TA_F"] ["TA_F", "VPD_F"]
      ["LE_F", "H_F"] ["P_F"] = none := by
  constructor
  · decide
  · rfl

lemma optMap_some_fst {f : α → Option β} {g : β → α}
    (hg : ∀ x y, f x = some y → g y = x) :
    ∀ {l : List α} {r : List β}, optMap f l = some r → r.map g = l := by
  intro l
  induction l with
  | nil =>
    intro r h
    simp [optMap] at h
    subst h
    rfl
  | cons x xs ih =>
    intro r h
    unfold optMap at h
    cases hfx : f x with
    | none => rw [hfx] at h; cases h
    | some y =>
      rw [hfx] at h
      cases hrest : optMap f xs with
      | none => rw [hrest] at h; cases h
      | some ys =>
        rw [hrest] at h
        injection h with h2
        subst h2
        simp [hg x y hfx, ih hrest]

lemma optMap_some_mem {f : α → Option β} :
    ∀ {l : List α} {r : List β}, optMap f l = some r →
      ∀ {x : α} {y : β}, x ∈ l → f x = some y → y ∈ r := by
  intro l
  induction l with
  | nil => intro r _ x y hx; cases hx
  | cons a as ih =>
    intro r h x y hx hy
    unfold optMap at h
    cases hfa : f a with
    | none => rw [hfa] at h; cases h
    | some b =>
      rw [hfa] at h
      cases hrest : optMap f as with
      | none => rw [hrest] at h; cases h
      | some bs =>
        rw [hrest] at h
        injection h with h2
        subst h2
        rcases List.mem_cons.mp hx with rfl | hmem
        · rw [hfa] at hy
          injection hy with hy2
          subst hy2
          exact List.mem_cons_self _ _
        · exact List.mem_cons_of_mem _ (ih hrest hmem hy)

lemma subsetCols_inv {df : DataFrame} {names : List String} {d : DataFrame}
    (h : subsetCols df names = some d) :
    d.index = df.index ∧ d.cols.map Prod.fst = names ∧
      ∀ {c : String} {vs : List (Option ℚ)},
        c ∈ names → lookupCol df c = some vs → (c, vs) ∈ d.cols := by
  unfold subsetCols at h
  cases hm : optMap (fun n => (lookupCol df n).map (fun v => (n, v))) names with
  | none => rw [hm] at h; cases h
  | some cs =>
    rw [hm] at h
    injection h with h2
    subst h2
    have hg : ∀ (x : String) (y : String × List (Option ℚ)),
        (lookupCol df x).map (fun v => (x, v)) = some y → y.1 = x := by
      intro x y hxy
      cases hl : lookupCol df x with
      | none => rw [hl] at hxy; cases hxy
      | some v =>
        rw [hl] at hxy
        injection hxy with h3
        subst h3
        rfl
    refine ⟨rfl, optMap_some_fst hg hm, ?_⟩
    intro c vs hc hvs
    exact optMap_some_mem hm hc (by rw [hvs]; rfl)

lemma resample_some_inv {df : DataFrame} {b : Nat → Nat}
    {ac mc xc sc : List String} {out : DataFrame}
    (h : resample_ecoflux_met df b ac mc xc sc = some out) :
    ∃ ds da dm dx, subsetCols df sc = some ds ∧ subsetCols df ac = some da ∧
      subsetCols df mc = some dm ∧ subsetCols df xc = some dx := by
  unfold resample_ecoflux_met at h
  cases hs : subsetCols df sc with
  | none => rw [hs] at h; cases h
  | some ds =>
    rw [hs] at h
    cases ha : subsetCols df ac with
    | none => rw [ha] at h; cases h
    | some da =>
      rw [ha] at h
      cases hmm : subsetCols df mc with
      | none => rw [hmm] at h; cases h
      | some dm =>
        rw [hmm] at h
        cases hx : subsetCols df xc with
        | none => rw [hx] at h; cases h
        | some dx => exact ⟨ds, da, dm, dx, rfl, rfl, rfl, rfl⟩

lemma resample_eq (df : DataFrame) (b : Nat → Nat)
    (ac mc xc sc : List String) (ds da dm dx : DataFrame)
    (hs : subsetCols df sc = some ds) (ha : subsetCols df ac = some da)
    (hm : subsetCols df mc = some dm) (hx : subsetCols df xc = some dx) :
    resample_ecoflux_met df b ac mc xc sc =
      some ⟨(renameAll sc "_sum" (resampleWith aggSum b ds)).index,
        (renameAll sc "_sum" (resampleWith aggSum b ds)).cols ++
          (renameAll ac "_avg" (resampleWith aggMean b da)).cols ++
          (renameAll mc "_min" (resampleWith aggMin b dm)).cols ++
          (renameAll xc "_max" (resampleWith aggMax b dx)).cols⟩ := by
  unfold resample_ecoflux_met
  rw [hs, ha, hm, hx]

lemma renameAll_names (ts : List String) (suf : String) (d : DataFrame) :
    (renameAll ts suf d).cols.map Prod.fst =
      (d.cols.map Prod.fst).map (applyRenames suf ts) := by
  unfold renameAll
  simp [List.map_map]

lemma resampleWith_names (agg : List (Option ℚ) → Option ℚ) (b : Nat → Nat)
    (d : DataFrame) :
    (resampleWith agg b d).cols.map Prod.fst = d.cols.map Prod.fst := by
  unfold resampleWith
  simp [List.map_map]

lemma applyRenames_cons (suf i : String) (ts : List String) (v : String) :
    applyRenames suf (i :: ts) v =
      applyRenames suf ts (if v = i then v ++ suf else v) := rfl

lemma applyRenames_of_not_mem {suf : String} :
    ∀ {ts : List String} {v : String}, v ∉ ts → applyRenames suf ts v = v := by
  intro ts
  induction ts with
  | nil => intro v _; rfl
  | cons i ts ih =>
    intro v hv
    rw [applyRenames_cons]
    have hne : v ≠ i := fun he => hv (he ▸ List.mem_cons_self i ts)
    rw [if_neg hne]
    exact ih (fun hmem => hv (List.mem_cons_of_mem _ hmem))

lemma applyRenames_once {suf : String} :
    ∀ {ts : List String} {d : String}, d ∈ ts → (d ++ suf) ∉ ts →
      applyRenames suf ts d = d ++ suf := by
  intro ts
  induction ts with
  | nil => intro d hd _; cases hd
  | cons i ts ih =>
    intro d hd hns
    rw [applyRenames_cons]
    by_cases hdi : d = i
    · rw [if_pos hdi]
      exact applyRenames_of_not_mem (fun hmem => hns (List.mem_cons_of_mem _ hmem))
    · rw [if_neg hdi]
      exact ih ((List.mem_cons.mp hd).resolve_left hdi)
        (fun hmem => hns (List.mem_cons_of_mem _ hmem))

lemma applyRenames_disj {suf : String} :
    ∀ (ts : List String) (v : String),
      applyRenames suf ts v = v ∨ ∃ m ∈ ts, applyRenames suf ts v = m ++ suf := by
  intro ts
  induction ts with
  | nil => intro v; exact Or.inl rfl
  | cons i ts ih =>
    intro v
    rw [applyRenames_cons]
    by_cases hvi : v = i
    · rw [if_pos hvi]
      rcases ih (v ++ suf) with h | ⟨m, hm, he⟩
      · exact Or.inr ⟨v, hvi ▸ List.mem_cons_self i ts, h⟩
      · exact Or.inr ⟨m, List.mem_cons_of_mem _ hm, he⟩
    · rw [if_neg hvi]
      rcases ih v with h | ⟨m, hm, he⟩
      · exact Or.inl h
      · exact Or.inr ⟨m, List.mem_cons_of_mem _ hm, he⟩

lemma applyRenames_hits {suf : String} :
    ∀ {ts : List String} {d : String}, d ∈ ts →
      ∃ m ∈ ts, applyRenames suf ts d = m ++ suf := by
  intro ts
  induction ts with
  | nil => intro d hd; cases hd
  | cons i ts ih =>
    intro d hd
    rw [applyRenames_cons]
    by_cases hdi : d = i
    · rw [if_pos hdi]
      rcases applyRenames_disj ts (d ++ suf) with h | ⟨m, hm, he⟩
      · exact ⟨d, hd, h⟩
      · exact ⟨m, List.mem_cons_of_mem _ hm, he⟩
    · rw [if_neg hdi]
      obtain ⟨m, hm, he⟩ := ih ((List.mem_cons.mp hd).resolve_left hdi)
      exact ⟨m, List.mem_cons_of_mem _ hm, he⟩

lemma strAppendRightInj {s : String} {a b : String} (h : a ++ s = b ++ s) :
    a = b := by
  have hd := congrArg String.data h
  rw [String.data_append, String.data_append] at hd
  exact String.ext (List.append_cancel_right hd)

lemma strAppendSufEq {s t : String} (hlen : s.data.length = t.data.length)
    {a b : String} (h : a ++ s = b ++ t) : a = b ∧ s = t := by
  have hd := congrArg String.data h
  rw [String.data_append, String.data_append] at hd
  obtain ⟨h1, h2⟩ := List.append_inj' hd hlen
  exact ⟨String.ext h1, String.ext h2⟩

lemma sufNe {s t : String} (hlen : s.data.length = t.data.length)
    (hst : s ≠ t) {a b : String} : a ++ s ≠ b ++ t :=
  fun h => hst (strAppendSufEq hlen h).2

/-- C8's property: the output's column names split into four segments, each
name being an element of the corresponding caller-supplied list carrying the
fixed suffix of its aggregation. -/
def allSuffixed (sum_cols avg_cols min_cols max_cols : List String)
    (out : DataFrame) : Prop :=
  ∃ ns na nm nx, out.cols.map Prod.fst = ns ++ na ++ nm ++ nx ∧
    (∀ n ∈ ns, ∃ m ∈ sum_cols, n = m ++ "_sum") ∧
    (∀ n ∈ na, ∃ m ∈ avg_cols, n = m ++ "_avg") ∧
    (∀ n ∈ nm, ∃ m ∈ min_cols, n = m ++ "_min") ∧
    (∀ n ∈ nx, ∃ m ∈ max_cols, n = m ++ "_max")

lemma part_names_suffixed {df : DataFrame} {names : List String}
    {d : DataFrame} (h : subsetCols df names = some d) (suf : String)
    (agg : List (Option ℚ) → Option ℚ) (b : Nat → Nat) :
    ∀ n ∈ (renameAll names suf (resampleWith agg b d)).cols.map Prod.fst,
      ∃ m ∈ names, n = m ++ suf := by
  intro n hn
  rw [renameAll_names, resampleWith_names, (subsetCols_inv h).2.1] at hn
  obtain ⟨x, hx, rfl⟩ := List.mem_map.mp hn
  exact applyRenames_hits hx

/-- C8: whenever `resample_ecoflux_met` returns a frame (all subsettings
succeeded, so the fallback branch is not taken), every output column is
renamed with the fixed suffix of its aggregation: the sum part's names are
elements of `sum_cols` with `_sum` appended, and likewise `_avg`, `_min`,
`_max` for the other three parts. -/
theorem resample_renames_all (df : DataFrame) (b : Nat → Nat)
    (ac mc xc sc : List String) (out : DataFrame)
    (hres : resample_ecoflux_met df b ac mc xc sc = some out) :
    allSuffixed sc ac mc xc out := by
  obtain ⟨ds, da, dm, dx, hs, ha, hm, hx⟩ := resample_some_inv hres
  rw [resample_eq df b ac mc xc sc ds da dm dx hs ha hm hx] at hres
  injection hres with hout
  subst hout
  refine ⟨(renameAll sc "_sum" (resampleWith aggSum b ds)).cols.map Prod.fst,
    (renameAll ac "_avg" (resampleWith aggMean b da)).cols.map Prod.fst,
    (renameAll mc "_min" (resampleWith aggMin b dm)).cols.map Prod.fst,
    (renameAll xc "_max" (resampleWith aggMax b dx)).cols.map Prod.fst,
    ?_, part_names_suffixed hs "_sum" aggSum b,
    part_names_suffixed ha "_avg" aggMean b,
    part_names_suffixed hm "_min" aggMin b,
    part_names_suffixed hx "_max" aggMax b⟩
  simp [List.map_append]

/-- A frame holding a flux sum column and a temperature column (the values
are all missing so that every concrete aggregate is reducible: the sums are
0 and the mean/min/max are NaN; the structural claims under test do not
depend on the cell values). -/
def dfFull : DataFrame :=
  ⟨[0, 1], [("P_F", [none, none]), ("TA_F", [none, none])]⟩

/-- The frame `resample_ecoflux_met` returns on `dfFull` with one bucket,
`sum_cols = [P_F]` and `avg_cols = min_cols = max_cols = [TA_F]`. -/
def outW8 : DataFrame :=
  ⟨[0], [("P_F_sum", [some 0]), ("TA_F_avg", [none]),
    ("TA_F_min", [none]), ("TA_F_max", [none])]⟩

/-- Witness for C8 on a concrete frame and column lists. -/
theorem resample_renames_all_witness :
    resample_ecoflux_met dfFull (fun _ => 0) ["TA_F"] ["TA_F"] ["TA_F"]
      ["P_F"] = some outW8 ∧
    allSuffixed ["P_F"] ["TA_F"] ["TA_F"] ["TA_F"] outW8 :=
  ⟨by decide, resample_renames_all dfFull (fun _ => 0) ["TA_F"] ["TA_F"]
    ["TA_F"] ["P_F"] outW8 (by decide)⟩

/-- Does the name `nm` read as column `c` under any of the four aggregation
suffixes? -/
def dualName (c nm : String) : Bool :=
  nm == c ++ "_sum" || nm == c ++ "_avg" || nm == c ++ "_min" || nm == c ++ "_max"

/-- `dualName` lifted to a named column. -/
def dualPred (c : String) (col : String × List (Option ℚ)) : Bool :=
  dualName c col.1

lemma countP_dual (c : String) (l : List (String × List (Option ℚ))) :
    l.countP (dualPred c) = (l.map Prod.fst).countP (dualName c) := by
  rw [List.countP_map]
  rfl

lemma countP_dualName_sum (c : String) (l : List String) :
    (l.map (fun d => d ++ "_sum")).countP (dualName c) = l.count c := by
  rw [List.countP_map, List.count_eq_countP]
  apply List.countP_congr
  intro d _
  simp only [Function.comp_apply]
  by_cases hdc : d = c
  · subst hdc
    simp [dualName]
  · have h1 : ¬ (d ++ "_sum" = c ++ "_sum") := fun he => hdc (strAppendRightInj he)
    have h2 : d ++ "_sum" ≠ c ++ "_avg" := sufNe (by decide) (by decide)
    have h3 : d ++ "_sum" ≠ c ++ "_min" := sufNe (by decide) (by decide)
    have h4 : d ++ "_sum" ≠ c ++ "_max" := sufNe (by decide) (by decide)
    simp [dualName, h1, h2, h3, h4, hdc]

lemma countP_dualName_avg (c : String) (l : List String) :
    (l.map (fun d => d ++ "_avg")).countP (dualName c) = l.count c := by
  rw [List.countP_map, List.count_eq_countP]
  apply List.countP_congr
  intro d _
  simp only [Function.comp_apply]
  by_cases hdc : d = c
  · subst hdc
    simp [dualName]
  · have h1 : d ++ "_avg" ≠ c ++ "_sum" := sufNe (by decide) (by decide)
    have h2 : ¬ (d ++ "_avg" = c ++ "_avg") := fun he => hdc (strAppendRightInj he)
    have h3 : d ++ "_avg" ≠ c ++ "_min" := sufNe (by decide) (by decide)
    have h4 : d ++ "_avg" ≠ c ++ "_max" := sufNe (by decide) (by decide)
    simp [dualName, h1, h2, h3, h4, hdc]

lemma countP_dualName_zero_min (c : String) (mc : List String) (hcm : c ∉ mc)
    {names : List String} (hn : ∀ n ∈ names, ∃ m ∈ mc, n = m ++ "_min") :
    names.countP (dualName c) = 0 := by
  rw [List.countP_eq_zero]
  intro n hnmem
  obtain ⟨m, hmem, rfl⟩ := hn n hnmem
  have h1 : m ++ "_min" ≠ c ++ "_sum" := sufNe (by decide) (by decide)
  have h2 : m ++ "_min" ≠ c ++ "_avg" := sufNe (by decide) (by decide)
  have h3 : ¬ (m ++ "_min" = c ++ "_min") :=
    fun he => hcm (strAppendRightInj he ▸ hmem)
  have h4 : m ++ "_min" ≠ c ++ "_max" := sufNe (by decide) (by decide)
  simp [dualName, h1, h2, h3, h4]

lemma countP_dualName_zero_max (c : String) (xc : List String) (hcx : c ∉ xc)
    {names : List String} (hn : ∀ n ∈ names, ∃ m ∈ xc, n = m ++ "_max") :
    names.countP (dualName c) = 0 := by
  rw [List.countP_eq_zero]
  intro n hnmem
  obtain ⟨m, hmem, rfl⟩ := hn n hnmem
  have h1 : m ++ "_max" ≠ c ++ "_sum" := sufNe (by decide) (by decide)
  have h2 : m ++ "_max" ≠ c ++ "_avg" := sufNe (by decide) (by decide)
  have h3 : m ++ "_max" ≠ c ++ "_min" := sufNe (by decide) (by decide)
  have h4 : ¬ (m ++ "_max" = c ++ "_max") :=
    fun he => hcx (strAppendRightInj he ▸ hmem)
  simp [dualName, h1, h2, h3, h4]

/-- C5: a column `c` listed (once) in both `sum_cols` and `avg_cols` — and in
neither `min_cols` nor `max_cols`, with neither list containing a name that
collides with a renamed name — appears in the output exactly twice, once as
`c_sum` and once as `c_avg`, whose per-bucket values are respectively the
skip-NaN sum and the skip-NaN arithmetic mean of the same input values of
column `c` in that bucket. -/
theorem resample_dual_group (df : DataFrame) (b : Nat → Nat)
    (ac mc xc sc : List String) (c : String) (out : DataFrame)
    (vs : List (Option ℚ))
    (hres : resample_ecoflux_met df b ac mc xc sc = some out)
    (hvs : lookupCol df c = some vs)
    (hcs : sc.count c = 1) (hca : ac.count c = 1)
    (hss : ∀ d ∈ sc, (d ++ "_sum") ∉ sc)
    (haa : ∀ d ∈ ac, (d ++ "_avg") ∉ ac)
    (hcm : c ∉ mc) (hcx : c ∉ xc) :
    out.cols.countP (dualPred c) = 2 ∧
    (c ++ "_sum", (groupVals b df.index vs).map aggSum) ∈ out.cols ∧
    (c ++ "_avg", (groupVals b df.index vs).map aggMean) ∈ out.cols := by
  obtain ⟨ds, da, dm, dx, hs, ha, hm, hx⟩ := resample_some_inv hres
  rw [resample_eq df b ac mc xc sc ds da dm dx hs ha hm hx] at hres
  injection hres with hout
  subst hout
  obtain ⟨hsidx, hsnames, hsmem⟩ := subsetCols_inv hs
  obtain ⟨haidx, hanames, hamem⟩ := subsetCols_inv ha
  have hcsc : c ∈ sc := List.count_pos_iff.mp (by omega)
  have hcac : c ∈ ac := List.count_pos_iff.mp (by omega)
  have hS : (renameAll sc "_sum" (resampleWith aggSum b ds)).cols.map Prod.fst =
      sc.map (fun d => d ++ "_sum") := by
    rw [renameAll_names, resampleWith_names, hsnames]
    exact List.map_congr_left (fun d hd => applyRenames_once hd (hss d hd))
  have hA : (renameAll ac "_avg" (resampleWith aggMean b da)).cols.map Prod.fst =
      ac.map (fun d => d ++ "_avg") := by
    rw [renameAll_names, resampleWith_names, hanames]
    exact List.map_congr_left (fun d hd => applyRenames_once hd (haa d hd))
  refine ⟨?_, ?_, ?_⟩
  · show ((renameAll sc "_sum" (resampleWith aggSum b ds)).cols ++
      (renameAll ac "_avg" (resampleWith aggMean b da)).cols ++
      (renameAll mc "_min" (resampleWith aggMin b dm)).cols ++
      (renameAll xc "_max" (resampleWith aggMax b dx)).cols).countP (dualPred c) = 2
    have e1 : (renameAll sc "_sum" (resampleWith aggSum b ds)).cols.countP
        (dualPred c) = 1 := by
      rw [countP_dual, hS, countP_dualName_sum, hcs]
    have e2 : (renameAll ac "_avg" (resampleWith aggMean b da)).cols.countP
        (dualPred c) = 1 := by
      rw [countP_dual, hA, countP_dualName_avg, hca]
    have e3 : (renameAll mc "_min" (resampleWith aggMin b dm)).cols.countP
        (dualPred c) = 0 := by
      rw [countP_dual]
      exact countP_dualName_zero_min c mc hcm (part_names_suffixed hm "_min" aggMin b)
    have e4 : (renameAll xc "_max" (resampleWith aggMax b dx)).cols.countP
        (dualPred c) = 0 := by
      rw [countP_dual]
      exact countP_dualName_zero_max c xc hcx (part_names_suffixed hx "_max" aggMax b)
    rw [List.countP_append, List.countP_append, List.countP_append,
      e1, e2, e3, e4]
  · show (c ++ "_sum", (groupVals b df.index vs).map aggSum) ∈
      (renameAll sc "_sum" (resampleWith aggSum b ds)).cols ++
      (renameAll ac "_avg" (resampleWith aggMean b da)).cols ++
      (renameAll mc "_min" (resampleWith aggMin b dm)).cols ++
      (renameAll xc "_max" (resampleWith aggMax b dx)).cols
    have h1 : (c, (groupVals b ds.index vs).map aggSum) ∈
        (resampleWith aggSum b ds).cols := List.mem_map_of_mem _ (hsmem hcsc hvs)
    rw [hsidx] at h1
    have h2 : (applyRenames "_sum" sc c, (groupVals b df.index vs).map aggSum) ∈
        (renameAll sc "_sum" (resampleWith aggSum b ds)).cols :=
      List.mem_map_of_mem _ h1
    rw [applyRenames_once hcsc (hss c hcsc)] at h2
    exact List.mem_append_left _ (List.mem_append_left _
      (List.mem_append_left _ h2))
  · show (c ++ "_avg", (groupVals b df.index vs).map aggMean) ∈
      (renameAll sc "_sum" (resampleWith aggSum b ds)).cols ++
      (renameAll ac "_avg" (resampleWith aggMean b da)).cols ++
      (renameAll mc "_min" (resampleWith aggMin b dm)).cols ++
      (renameAll xc "_max" (resampleWith aggMax b dx)).cols
    have h1 : (c, (groupVals b da.index vs).map aggMean) ∈
        (resampleWith aggMean b da).cols := List.mem_map_of_mem _ (hamem hcac hvs)
    rw [haidx] at h1
    have h2 : (applyRenames "_avg" ac c, (groupVals b df.index vs).map aggMean) ∈
        (renameAll ac "_avg" (resampleWith aggMean b da)).cols :=
      List.mem_map_of_mem _ h1
    rw [applyRenames_once hcac (haa c hcac)] at h2
    exact List.mem_append_left _ (List.mem_append_left _
      (List.mem_append_right _ h2))

/-- The frame `resample_ecoflux_met` returns on `dfFull` with one bucket,
`sum_cols = avg_cols = [P_F]` and empty min/max lists. -/
def outW5 : DataFrame :=
  ⟨[0], [("P_F_sum", [some 0]), ("P_F_avg", [none])]⟩

/-- Witness for C5 with `P_F` listed in both the sum and the average group. -/
theorem resample_dual_group_witness :
    (resample_ecoflux_met dfFull (fun _ => 0) ["P_F"] [] [] ["P_F"] =
        some outW5 ∧
      lookupCol dfFull "P_F" = some [none, none] ∧
      (["P_F"] : List String).count "P_F" = 1 ∧
      (∀ d ∈ (["P_F"] : List String), (d ++ "_sum") ∉ (["P_F"] : List String)) ∧
      (∀ d ∈ (["P_F"] : List String), (d ++ "_avg") ∉ (["P_F"] : List String)) ∧
      "P_F" ∉ ([] : List String) ∧ "P_F" ∉ ([] : List String)) ∧
    (outW5.cols.countP (dualPred "P_F") = 2 ∧
      ("P_F" ++ "_sum",
        (groupVals (fun _ => 0) dfFull.index [none, none]).map aggSum) ∈
          outW5.cols ∧
      ("P_F" ++ "_avg",
        (groupVals (fun _ => 0) dfFull.index [none, none]).map aggMean) ∈
          outW5.cols) :=
  ⟨⟨by decide, by decide, by decide, by decide, by decide, by decide, by decide⟩,
    resample_dual_group dfFull (fun _ => 0) ["P_F"] [] [] ["P_F"] "P_F" outW5
      [none, none] (by decide) (by decide) (by decide) (by decide) (by decide)
      (by decide) (by decide) (by decide)⟩
